import Mathlib

/-!
Verification of the analytics pipeline of the mcp-reddit-analysis repository.

The definitions below are a shallow embedding of `src/app/tools.py` (the
three Reddit tools `search_reddit`, `analyze_reddit_post`,
`analyze_reddit_trends`) and of the credential check from
`src/app/config.py`.  External capabilities (the NLTK word tokenizer, the
WordNet lemmatizer, the NLTK stop-word set and the TextBlob sentiment
scorer) are modelled as parameters, collected in the `NLP` structure;
everything the repository itself computes (filtering, counting, ranking,
grouping, averaging, labelling, response shaping) is embedded as
executable Lean functions.  Floating point polarity/score arithmetic is
modelled over the rationals.
-/

/-- Python list/str truthiness of an optional credential string: `None` and
the empty string are falsy (`config.py` leaves credentials `None` or sets
them to `os.getenv(..., "")`). -/
def pyFalsy : Option String → Bool
  | none => true
  | some s => s.isEmpty

/-- Prefix test on character lists (used to model Python substring search). -/
def leadMatch : List Char → List Char → Bool
  | [], _ => true
  | _ :: _, [] => false
  | a :: as, b :: bs => a = b && leadMatch as bs

/-- Substring test on character lists. -/
def hasSub (pat : List Char) : List Char → Bool
  | [] => leadMatch pat []
  | c :: rest => leadMatch pat (c :: rest) || hasSub pat rest

/-- Python `pat in s` on strings: substring membership. -/
def strIn (pat s : String) : Bool := hasSub pat.data s.data

/-- Python `string.punctuation`. -/
def punctuation : String := "!\x22#$%&\x27()*+,-./:;<=>?@[\x5c]^_\x60\x7b|\x7d~"

/-- Python `str.lower()`, modelled character-wise (ASCII case folding). -/
def strLower (s : String) : String := ⟨s.data.map Char.toLower⟩

/-- The external NLP capabilities used by `tools.py`: `word_tokenize`,
`WordNetLemmatizer().lemmatize`, `stopwords.words('english')` and
`TextBlob(text).sentiment` (a polarity/subjectivity pair). -/
structure NLP where
  tokenize : String → List String
  lemmatize : String → String
  stop : List String
  sentimentOf : String → ℚ × ℚ

/-- The three-way sentiment label rule that `tools.py` writes inline at each
labelling site: "positive" if polarity strictly exceeds 0.1, "negative" if
strictly below -0.1, else "neutral".  The thresholds 0.1 and -0.1 are
written `mkRat 1 10` and `mkRat (-1) 10` (the same rational values as
1/10 and -(1/10), in a kernel-computable form). -/
def labelOf (p : ℚ) : String :=
  if p > mkRat 1 10 then "positive"
  else if p < mkRat (-1) 10 then "negative" else "neutral"

/-- One token-filtering predicate of `tools.py` (lines 342-344 and 496-498):
keep a token iff it is not a stop word, not a substring of
`string.punctuation`, and longer than 2 characters.  Note the Python code
applies this test to the raw (unlemmatized) token. -/
def keepToken (stop : List String) (w : String) : Bool :=
  !(stop.contains w) && !(strIn w punctuation) && decide (2 < w.length)

/-- The keyword-extraction pipeline as the code performs it:
`word_tokenize(text.lower())`, filter raw tokens with `keepToken`, then
lemmatize the kept tokens (the list comprehension maps
`lemmatizer.lemmatize` over tokens that pass the filter). -/
def extractKeywords (nlp : NLP) (text : String) : List String :=
  ((nlp.tokenize (strLower text)).filter (keepToken nlp.stop)).map nlp.lemmatize

/-- Following the spec's words (section 4.2), for comparison with
`extractKeywords`: lower-case, tokenize, lemmatize each token, and only
then drop tokens failing the stop-word/punctuation/length filters. -/
def extractKeywordsSpecOrder (nlp : NLP) (text : String) : List String :=
  ((nlp.tokenize (strLower text)).map nlp.lemmatize).filter (keepToken nlp.stop)

/-- Insertion-order-preserving counter increment, modelling
`collections.Counter` updated with one token: an existing key keeps its
position, a new key is appended. -/
def counterAdd : List (String × Nat) → String → List (String × Nat)
  | [], w => [(w, 1)]
  | (k, n) :: rest, w =>
    if k = w then (k, n + 1) :: rest else (k, n) :: counterAdd rest w

/-- Counter increment by an arbitrary amount (used for `Counter.update`
with another counter). -/
def counterAddN : List (String × Nat) → String → Nat → List (String × Nat)
  | [], w, m => [(w, m)]
  | (k, n) :: rest, w, m =>
    if k = w then (k, n + m) :: rest else (k, n) :: counterAddN rest w m

/-- `Counter.update` with another counter: fold the other counter's entries
(in their insertion order) into this one. -/
def counterMerge (c d : List (String × Nat)) : List (String × Nat) :=
  d.foldl (fun acc kv => counterAddN acc kv.1 kv.2) c

/-- Descending-count comparison used to model `Counter.most_common`. -/
def countGE (a b : String × Nat) : Prop := b.2 ≤ a.2

instance : DecidableRel countGE := fun a b => Nat.decLe b.2 a.2

instance : IsTotal (String × Nat) countGE := ⟨fun a b => Nat.le_total b.2 a.2⟩

instance : IsTrans (String × Nat) countGE := ⟨fun _ _ _ h1 h2 => Nat.le_trans h2 h1⟩

/-- `Counter.most_common(n)`: the counter's entries sorted stably by
descending count (Python's sort is stable, as is insertion sort), truncated
to `n` entries. -/
def mostCommon (c : List (String × Nat)) (n : Nat) : List (String × Nat) :=
  (c.insertionSort countGE).take n

/-- A raw Reddit comment as `analyze_reddit_post` consumes it: `author` is
`none` when the comment's author was deleted (a falsy `comment.author`). -/
structure RComment where
  id : String
  author : Option String
  score : Int
  body : String
deriving DecidableEq

/-- The per-comment record built by `analyze_reddit_post` (its
`comment_data` dict; the externally formatted `created_utc` string is
omitted). -/
structure CommentOut where
  id : String
  author : String
  score : Int
  text : String
  polarity : ℚ
  subjectivity : ℚ
  label : String
deriving DecidableEq

/-- The comment text preview stored in `comment_data`:
`comment_text[:300] + "..." if len(comment_text) > 300 else comment_text`. -/
def previewText (t : String) : String :=
  if t.length > 300 then t.take 300 ++ "..." else t

/-- The loop state of the comment loop in `analyze_reddit_post`
(lines 304-345): the built `comments` list, the accumulated
`all_comment_text` (accumulated but never read afterwards in the source),
the `comment_sentiments` list and the `keywords` counter. -/
structure PostState where
  comments : List CommentOut
  allText : String
  sentiments : List ℚ
  keywords : List (String × Nat)
deriving DecidableEq

/-- One iteration of the comment loop: a comment with a deleted author is
skipped (`continue`); otherwise its sentiment is scored, the labelled
comment record is appended, and the sentiment list and keyword counter are
updated from the full comment body. -/
def stepComment (nlp : NLP) (st : PostState) (c : RComment) : PostState :=
  match c.author with
  | none => st
  | some a =>
    let s := nlp.sentimentOf c.body
    let lbl := if s.1 > mkRat 1 10 then "positive"
      else if s.1 < mkRat (-1) 10 then "negative" else "neutral"
    let cd : CommentOut :=
      { id := c.id, author := a, score := c.score, text := previewText c.body,
        polarity := s.1, subjectivity := s.2, label := lbl }
    { comments := st.comments ++ [cd],
      allText := st.allText ++ " " ++ c.body,
      sentiments := st.sentiments ++ [s.1],
      keywords := (extractKeywords nlp c.body).foldl counterAdd st.keywords }

/-- The topic assigned to one comment (lines 362-368): scan the first 10
top keywords in rank order and return the first whose word occurs as a
substring of the comment's stored lower-cased preview text (`break` on the
first hit); `none` when no keyword matches. -/
def assignedTopic (tks : List (String × Nat)) (c : CommentOut) : Option String :=
  ((tks.take 10).find? (fun kw => strIn kw.1 (strLower c.text))).map Prod.fst

/-- `defaultdict(list)` append, preserving key insertion order: append the
member to the first entry with the given key, or append a fresh entry. -/
def addGroup {α : Type} : List (String × List α) → String → α → List (String × List α)
  | [], k, x => [(k, [x])]
  | (t, xs) :: rest, k, x =>
    if t = k then (t, xs ++ [x]) :: rest else (t, xs) :: addGroup rest k x

/-- The topic-grouping loop of `analyze_reddit_post` (lines 359-371),
carrying the running comment index of `enumerate(comments)`. -/
def buildTopicsGo (tks : List (String × Nat)) :
    Nat → List (String × List Nat) → List CommentOut → List (String × List Nat)
  | _, gs, [] => gs
  | i, gs, c :: cs =>
    buildTopicsGo tks (i + 1)
      (match assignedTopic tks c with
       | some k => addGroup gs k i
       | none => gs) cs

/-- Topic groups for a comment list: comment indices grouped by assigned
topic, in topic first-assignment order. -/
def buildTopics (tks : List (String × Nat)) (cs : List CommentOut) :
    List (String × List Nat) :=
  buildTopicsGo tks 0 [] cs

/-- One entry of `topic_summaries` in `analyze_reddit_post`. -/
structure TopicOut where
  topic : String
  comment_count : Nat
  avg_sentiment : ℚ
  label : String
  sample_comments : List String
deriving DecidableEq

/-- The `comment_analysis` section of the `analyze_reddit_post` response,
together with the `comments[:20]` echo.  (`post_info` is a pass-through of
externally fetched attributes and is not modelled.) -/
structure PostAnalysis where
  comment_count : Nat
  average_polarity : ℚ
  overall_label : String
  dist_pos : Nat
  dist_neu : Nat
  dist_neg : Nat
  top_keywords : List (String × Nat)
  topic_analysis : List TopicOut
  commentsOut : List CommentOut
deriving DecidableEq

/-- One iteration of the topic-summary loop of `analyze_reddit_post`
(lines 374-386) over the comment list `stc`: a topic with more than one
assigned index is summarized.  The second accumulator component is the
Python variable `avg_sentiment`, which the loop body overwrites (line 378)
with the retained topic's average. -/
def topicFoldStep (stc : List CommentOut) (acc : List TopicOut × ℚ)
    (g : String × List Nat) : List TopicOut × ℚ :=
  if g.2.length > 1 then
    let tcs := g.2.filterMap (fun i => stc.get? i)
    let tavg : ℚ := (tcs.map (fun c => c.polarity)).sum / (tcs.length : ℚ)
    let summary : TopicOut :=
      { topic := g.1, comment_count := g.2.length, avg_sentiment := tavg,
        label := if tavg > mkRat 1 10 then "positive"
          else if tavg < mkRat (-1) 10 then "negative" else "neutral",
        sample_comments := (g.2.take 3).filterMap
          (fun i => (stc.get? i).map (fun c => c.text)) }
    (acc.1 ++ [summary], tavg)
  else acc

/-- The topic-summary loop (lines 374-386), threading the reused
`avg_sentiment` variable whose incoming value is the overall average. -/
def topicSummaries (stc : List CommentOut) (avg0 : ℚ)
    (groups : List (String × List Nat)) : List TopicOut × ℚ :=
  groups.foldl (topicFoldStep stc) ([], avg0)

/-- The analytics body of `analyze_reddit_post` (lines 304-402).  Note that
the source reuses the variable `avg_sentiment` inside the topic-summary
loop (line 378), so the `average_polarity`/`sentiment_label` placed in
`overall_sentiment` (lines 394-395) are taken from the *last retained
topic's* average whenever at least one topic is retained. -/
def analyzeComments (nlp : NLP) (commentLimit : Nat) (input : List RComment) :
    PostAnalysis :=
  let st := (input.take commentLimit).foldl (stepComment nlp) ⟨[], "", [], []⟩
  let avg0 : ℚ :=
    if st.sentiments.isEmpty then 0 else st.sentiments.sum / st.sentiments.length
  let pos := st.sentiments.countP (fun s => decide (s > mkRat 1 10))
  let neu := st.sentiments.countP
    (fun s => decide (mkRat (-1) 10 ≤ s ∧ s ≤ mkRat 1 10))
  let neg := st.sentiments.countP (fun s => decide (s < mkRat (-1) 10))
  let topKeywords := mostCommon st.keywords 20
  let groups := buildTopics topKeywords st.comments
  let tp := topicSummaries st.comments avg0 groups
  { comment_count := st.comments.length,
    average_polarity := tp.2,
    overall_label := if tp.2 > mkRat 1 10 then "positive"
      else if tp.2 < mkRat (-1) 10 then "negative" else "neutral",
    dist_pos := pos, dist_neu := neu, dist_neg := neg,
    top_keywords := topKeywords,
    topic_analysis := tp.1,
    commentsOut := st.comments.take 20 }

/-- A tool's response dictionary: either a success payload or a structured
error dictionary with `status: "error"` and a message. -/
inductive ToolResult (α : Type) where
  | ok (value : α)
  | error (message : String)
deriving DecidableEq

/-- The missing-credentials error message of `tools.py`. -/
def msgNoCreds : String :=
  "레딧 API 인증 정보가 설정되어 있지 않습니다. 환경 변수에 REDDIT_CLIENT_ID와 REDDIT_CLIENT_SECRET을 설정해주세요."

def msgBadSort : String :=
  "유효하지 않은 댓글 정렬 방식입니다. \x27top\x27, \x27best\x27, \x27new\x27, \x27controversial\x27, \x27old\x27, \x27qa\x27 중 하나를 사용하세요."

def msgBadUrl : String := "유효하지 않은 레딧 포스트 URL입니다."

def msgBadSearchType : String :=
  "유효하지 않은 검색 유형입니다. \x27post\x27 또는 \x27subreddit\x27을 사용하세요."

def msgBadTimeFilter : String :=
  "유효하지 않은 시간 필터입니다. \x27hour\x27, \x27day\x27, \x27week\x27, \x27month\x27, \x27year\x27, \x27all\x27 중 하나를 사용하세요."

def msgBadPeriod : String :=
  "유효하지 않은 시간 기간입니다. \x27hour\x27, \x27day\x27, \x27week\x27, \x27month\x27, \x27year\x27 중 하나를 사용하세요."

def validSorts : List String := ["top", "best", "new", "controversial", "old", "qa"]

def validSearchTypes : List String := ["post", "subreddit"]

def validTimeFilters : List String := ["hour", "day", "week", "month", "year", "all"]

def validPeriods : List String := ["hour", "day", "week", "month", "year"]

/-- The `search_reddit` response payload; the shaped result records (built
from external praw objects) are passed through as an opaque list. -/
structure SearchOut (α : Type) where
  query : String
  search_type : String
  subredditName : Option String
  time_filter : String
  result_count : Nat
  results : List α
deriving DecidableEq

/-- The `search_reddit` tool (lines 135-236): credential check first, then
parameter validation, then the (externally fetched) results are shaped into
the success payload. -/
def searchReddit {α : Type} (cid csec : Option String) (query searchType : String)
    (sub : Option String) (timeFilter : String) (fetched : List α) :
    ToolResult (SearchOut α) :=
  if pyFalsy cid || pyFalsy csec then .error msgNoCreds
  else if !(validSearchTypes.contains searchType) then .error msgBadSearchType
  else if !(validTimeFilters.contains timeFilter) then .error msgBadTimeFilter
  else
    .ok { query := query, search_type := searchType, subredditName := sub,
          time_filter := timeFilter, result_count := fetched.length,
          results := fetched }

/-- The `analyze_reddit_post` tool boundary (lines 239-402): credential
check first, then sort validation, then the post id extracted from the URL
(modelled as an `Option`, `none` when the regex does not match), then the
comment analytics over the fetched comment list. -/
def analyzeRedditPost (cid csec : Option String) (commentSort : String)
    (commentLimit : Nat) (postId : Option String) (nlp : NLP)
    (comments : List RComment) : ToolResult PostAnalysis :=
  if pyFalsy cid || pyFalsy csec then .error msgNoCreds
  else if !(validSorts.contains commentSort) then .error msgBadSort
  else match postId with
    | none => .error msgBadUrl
    | some _ => .ok (analyzeComments nlp commentLimit comments)

/-- A raw post as the trend-analysis loop consumes it (praw attributes
`id`, `title`, `selftext`, `score`, `num_comments`). -/
structure TrendPost where
  id : String
  title : String
  selftext : String
  score : Int
  num_comments : Int
deriving DecidableEq

/-- The `post_data` dict appended to `all_posts` (lines 468-476); the
externally formatted `created_utc` and `url` strings are omitted. -/
structure TrendPostOut where
  id : String
  title : String
  subredditName : String
  score : Int
  num_comments : Int
deriving DecidableEq

/-- The per-subreddit rolling aggregate initialized at lines 457-463. -/
structure SubAcc where
  post_count : Nat
  total_score : Int
  total_comments : Int
  keywords : List (String × Nat)
  sentiments : List ℚ
deriving DecidableEq

/-- The finalized per-subreddit stats entry (after lines 504-512). -/
structure OkStats where
  post_count : Nat
  total_score : Int
  total_comments : Int
  keywords : List (String × Nat)
  sentiments : List ℚ
  avg_sentiment : ℚ
  top_keywords : List (String × Nat)
deriving DecidableEq

/-- A `subreddit_stats` entry: either the finalized stats dict or the
error dict written by the per-subreddit `except` handler (line 515-517). -/
inductive SubStats where
  | ok (s : OkStats)
  | err (message : String)
deriving DecidableEq

/-- The message prefix of the per-subreddit error marker. -/
def msgSubErr : String := "서브레딧 분석 중 오류 발생: "

/-- The fetch/processing trace of one subreddit: each element either yields
a post or models an exception raised at that point of the iteration. -/
structure SubInput where
  name : String
  items : List (Except String TrendPost)

/-- The body of the per-subreddit `try` block (lines 453-512): process the
fetched posts in order, appending `post_data` to the global `all_posts`
list and updating the rolling aggregate; an exception aborts the loop and
produces the error entry (posts already appended to `all_posts` remain);
on success the average sentiment and top-10 keywords are finalized. -/
def runSub (nlp : NLP) (name : String) :
    List TrendPostOut → SubAcc → List (Except String TrendPost) →
    List TrendPostOut × SubStats
  | posts, acc, [] =>
    let avg : ℚ :=
      if acc.sentiments.isEmpty then 0 else acc.sentiments.sum / acc.sentiments.length
    let fin : OkStats :=
      { post_count := acc.post_count, total_score := acc.total_score,
        total_comments := acc.total_comments, keywords := acc.keywords,
        sentiments := acc.sentiments, avg_sentiment := avg,
        top_keywords := mostCommon acc.keywords 10 }
    (posts, .ok fin)
  | posts, _, .error e :: _ => (posts, .err (msgSubErr ++ e))
  | posts, acc, .ok p :: rest =>
    let pd : TrendPostOut :=
      { id := p.id, title := p.title, subredditName := name,
        score := p.score, num_comments := p.num_comments }
    let combined := p.title ++ (if p.selftext.isEmpty then "" else " " ++ p.selftext)
    let s := (nlp.sentimentOf combined).1
    runSub nlp name (posts ++ [pd])
      { post_count := acc.post_count + 1,
        total_score := acc.total_score + p.score,
        total_comments := acc.total_comments + p.num_comments,
        keywords := (extractKeywords nlp combined).foldl counterAdd acc.keywords,
        sentiments := acc.sentiments ++ [s] } rest

/-- Python dict assignment on a key-ordered association list: an existing
key keeps its position and gets the new value, a fresh key is appended. -/
def dictSet (d : List (String × SubStats)) (k : String) (v : SubStats) :
    List (String × SubStats) :=
  match d with
  | [] => [(k, v)]
  | (k0, v0) :: rest =>
    if k0 = k then (k0, v) :: rest else (k0, v0) :: dictSet rest k v

/-- The outer subreddit loop (lines 452-517): process each subreddit in
order, threading `all_posts` and writing its `subreddit_stats` entry. -/
def collectSubs (nlp : NLP) :
    List TrendPostOut × List (String × SubStats) → List SubInput →
    List TrendPostOut × List (String × SubStats)
  | acc, [] => acc
  | (posts, stats), s :: rest =>
    let r := runSub nlp s.name posts ⟨0, 0, 0, [], []⟩ s.items
    collectSubs nlp (r.1, dictSet stats s.name r.2) rest

/-- The `all_posts` list after the subreddit loop. -/
def postsOf (nlp : NLP) (subs : List SubInput) : List TrendPostOut :=
  (collectSubs nlp ([], []) subs).1

/-- The `subreddit_stats` dict after the subreddit loop. -/
def statsOf (nlp : NLP) (subs : List SubInput) : List (String × SubStats) :=
  (collectSubs nlp ([], []) subs).2

/-- Python dict lookup on the stats association list. -/
def dictFind (d : List (String × SubStats)) (k : String) : Option SubStats :=
  (d.find? (fun kv => kv.1 = k)).map Prod.snd

/-- One entry of the `subreddit_activity` ranking (lines 537-548). -/
structure ActivityOut where
  subredditName : String
  activity_score : ℚ
  post_count : Nat
  total_score : Int
  total_comments : Int
  avg_sentiment : ℚ
deriving DecidableEq

/-- One entry of the trend `topic_summaries` (lines 567-572). -/
structure TrendTopicOut where
  topic : String
  post_count : Nat
  avg_score : ℚ
  sample_posts : List String
deriving DecidableEq

/-- The trend topic-grouping loop (lines 553-558).  In the source this is
`for keyword, _ in trending_keywords[:10]: ...`; each element of
`trending_keywords` is the dict with the two keys "word" and "count"
(line 530), and tuple-unpacking a dict iterates its keys, so `keyword` is
bound to the literal string "word" on every one of the (up to 10)
iterations, and `_` to the literal string "count".  Each iteration then
appends to `topics["word"]` the id of every post whose lower-cased title
contains "word" as a substring. -/
def trendTopics (trending : List (String × Nat)) (allPosts : List TrendPostOut) :
    List (String × List String) :=
  (trending.take 10).foldl (fun gs _kw =>
    allPosts.foldl (fun gs2 p =>
      if strIn "word" (strLower p.title) then addGroup gs2 "word" p.id else gs2) gs) []

/-- The trend topic summaries (lines 561-572): keep groups with more than
one collected id (ids may repeat), average the scores of the distinct
matching posts, and sample up to 3 titles. -/
def trendTopicSummaries (allPosts : List TrendPostOut)
    (groups : List (String × List String)) : List TrendTopicOut :=
  groups.foldl (fun acc g =>
    if g.2.length > 1 then
      let relevant := allPosts.filter (fun p => g.2.contains p.id)
      let summary : TrendTopicOut :=
        { topic := g.1, post_count := g.2.length,
          avg_score := (relevant.map (fun p => (p.score : ℚ))).sum / (relevant.length : ℚ),
          sample_posts := (relevant.take 3).map (fun p => p.title) }
      acc ++ [summary]
    else acc) []

/-- The success payload of `analyze_reddit_trends` (lines 574-586); the
`analysis_period` and `subreddits_analyzed` echo fields are omitted.  Note
the response does not include the `subreddit_stats` dict itself. -/
structure TrendAnalysis where
  trending_keywords : List (String × Nat)
  average_polarity : ℚ
  sentiment_label : String
  subreddit_activity : List ActivityOut
  topic_analysis : List TrendTopicOut
  trending_posts : List TrendPostOut
deriving DecidableEq

/-- One step of the keyword-merging loop (lines 523-525): error entries
(which lack a "keywords" key) are skipped. -/
def mergeKeywordsStep (acc : List (String × Nat)) (kv : String × SubStats) :
    List (String × Nat) :=
  match kv.2 with
  | .ok s => counterMerge acc s.keywords
  | .err _ => acc

/-- One step of the sentiment-gathering loop (lines 526-527): error entries
(which lack a "sentiments" key) are skipped. -/
def gatherSentsStep (acc : List ℚ) (kv : String × SubStats) : List ℚ :=
  match kv.2 with
  | .ok s => acc ++ s.sentiments
  | .err _ => acc

/-- One step of the activity-ranking loop (lines 537-548): error entries
(which lack a "total_score" key) are skipped. -/
def activityStep (acc : List ActivityOut) (kv : String × SubStats) :
    List ActivityOut :=
  match kv.2 with
  | .ok s =>
    let a : ActivityOut :=
      { subredditName := kv.1,
        activity_score := (s.total_score : ℚ) / 100 + (s.total_comments : ℚ),
        post_count := s.post_count, total_score := s.total_score,
        total_comments := s.total_comments, avg_sentiment := s.avg_sentiment }
    acc ++ [a]
  | .err _ => acc

/-- The aggregation body of `analyze_reddit_trends` (lines 444-586). -/
def analyzeTrendsCore (nlp : NLP) (subs : List SubInput) : TrendAnalysis :=
  let allPosts := postsOf nlp subs
  let stats := statsOf nlp subs
  let allKeywords := stats.foldl mergeKeywordsStep []
  let allSents := stats.foldl gatherSentsStep ([] : List ℚ)
  let trending := mostCommon allKeywords 20
  let avg : ℚ := if allSents.isEmpty then 0 else allSents.sum / allSents.length
  let activity := stats.foldl activityStep []
  { trending_keywords := trending,
    average_polarity := avg,
    sentiment_label := if avg > mkRat 1 10 then "positive"
      else if avg < mkRat (-1) 10 then "negative" else "neutral",
    subreddit_activity :=
      activity.insertionSort (fun a b => b.activity_score ≤ a.activity_score),
    topic_analysis := trendTopicSummaries allPosts (trendTopics trending allPosts),
    trending_posts := (allPosts.insertionSort (fun a b => b.score ≤ a.score)).take 10 }

/-- The `analyze_reddit_trends` tool boundary (lines 411-593): credential
check first, then time-period validation, then the aggregation body over
the per-subreddit fetch traces (the caller-side default of `["all"]` for an
empty subreddit list only chooses names and is outside this model). -/
def analyzeRedditTrends (cid csec : Option String) (timePeriod : String)
    (nlp : NLP) (subs : List SubInput) : ToolResult TrendAnalysis :=
  if pyFalsy cid || pyFalsy csec then .error msgNoCreds
  else if !(validPeriods.contains timePeriod) then .error msgBadPeriod
  else .ok (analyzeTrendsCore nlp subs)

/-! Concrete instantiations of the external NLP capabilities, used for
witnesses and counterexamples. -/

/-- Splitting a character list on spaces (helper for `splitTok`). -/
def splitChars (cur : List Char) : List Char → List (List Char)
  | [] => [cur.reverse]
  | c :: rest =>
    if c = ' ' then cur.reverse :: splitChars [] rest
    else splitChars (c :: cur) rest

/-- A simple whitespace word tokenizer. -/
def splitTok (s : String) : List String :=
  ((splitChars [] s.data).map (fun l => String.mk l)).filter (fun w => !w.isEmpty)

/-- Identity lemmatizer, empty stop list, constant neutral sentiment. -/
def nlpI : NLP :=
  { tokenize := splitTok, lemmatize := id, stop := [],
    sentimentOf := fun _ => (0, 0) }

/-- An instantiation mirroring real NLTK behaviour on the token "does":
"does" is in the English stop-word list, and the WordNet lemmatizer (with
its default noun part of speech) maps "does" to "doe". -/
def nlpD : NLP :=
  { tokenize := splitTok,
    lemmatize := fun w => if w = "does" then "doe" else w,
    stop := ["does"], sentimentOf := fun _ => (0, 0) }

/-- Mapping after filtering coincides with filtering after mapping when the
mapped function preserves the predicate. -/
theorem map_filter_eq_filter_map {α β : Type} (f : α → β) (p : α → Bool)
    (q : β → Bool) (h : ∀ x, q (f x) = p x) :
    ∀ l : List α, (l.filter p).map f = (l.map f).filter q := by
  intro l
  induction l with
  | nil => rfl
  | cons a l ih =>
    simp only [List.filter_cons, List.map_cons, h a]
    cases hp : p a <;> simp [hp, ih]

/-- C8 (amended): the tokenizer pipeline lower-cases, word-tokenizes, drops
raw tokens that are stop words, punctuation substrings or of length at most
2, and only then lemmatizes the kept tokens; it agrees with the spec's
lemmatize-then-filter order exactly on inputs whose tokens' lemmatization
preserves the filter predicate.  Identical input trivially yields identical
output since the pipeline is a pure function. -/
theorem tokenizer_filter_before_lemmatize (nlp : NLP) (text : String)
    (h : ∀ w, keepToken nlp.stop (nlp.lemmatize w) = keepToken nlp.stop w) :
    extractKeywords nlp text = extractKeywordsSpecOrder nlp text :=
  map_filter_eq_filter_map nlp.lemmatize (keepToken nlp.stop)
    (keepToken nlp.stop) h (nlp.tokenize (strLower text))

/-- Witness for `tokenizer_filter_before_lemmatize` with the identity
lemmatizer. -/
theorem tokenizer_filter_before_lemmatize_witness :
    extractKeywords nlpI "great doing product" =
      extractKeywordsSpecOrder nlpI "great doing product" :=
  tokenizer_filter_before_lemmatize nlpI "great doing product" (fun _ => rfl)

/-- C8 counterexample: the claim's order (lemmatize, then drop) disagrees
with the code's order (drop raw tokens, then lemmatize) on the input
"does": the code filters the raw token "does" out as a stop word and
returns no tokens, while the claimed order would lemmatize it to "doe"
first, which survives every filter. -/
theorem tokenizer_order_counterexample :
    extractKeywords nlpD "does" = [] ∧
    extractKeywordsSpecOrder nlpD "does" = ["doe"] ∧
    extractKeywords nlpD "does" ≠ extractKeywordsSpecOrder nlpD "does" := by
  refine ⟨by decide, by decide, by decide⟩

/-- C9: with the client id or client secret credential absent, each of the
three Reddit-dependent tools returns the structured missing-credentials
error, whatever every other parameter is.  In particular the result does
not depend on the fetched data arguments (`fetched`, `comments`, `subs`),
which models that no Reddit API call is consulted. -/
theorem missing_credentials_short_circuit {α : Type} (cid csec : Option String)
    (q sty : String) (sub : Option String) (tf : String) (fetched : List α)
    (cso : String) (lim : Nat) (pid : Option String) (nlp : NLP)
    (comments : List RComment) (tp : String) (subs : List SubInput)
    (h : cid = none ∨ csec = none) :
    searchReddit cid csec q sty sub tf fetched = .error msgNoCreds ∧
    analyzeRedditPost cid csec cso lim pid nlp comments = .error msgNoCreds ∧
    analyzeRedditTrends cid csec tp nlp subs = .error msgNoCreds := by
  have hb : (pyFalsy cid || pyFalsy csec) = true := by
    rcases h with h | h <;> subst h <;> simp [pyFalsy]
  refine ⟨?_, ?_, ?_⟩ <;>
    simp [searchReddit, analyzeRedditPost, analyzeRedditTrends, hb]

/-- Witness for `missing_credentials_short_circuit` at concrete inputs. -/
theorem missing_credentials_short_circuit_witness :
    searchReddit (α := String) none (some "secret") "rust" "post" none "month"
        [] = .error msgNoCreds ∧
    analyzeRedditPost none (some "secret") "top" 100 (some "abc123") nlpI []
        = .error msgNoCreds ∧
    analyzeRedditTrends none (some "secret") "day" nlpI [] = .error msgNoCreds :=
  missing_credentials_short_circuit none (some "secret") "rust" "post" none
    "month" [] "top" 100 (some "abc123") nlpI [] "day" [] (Or.inl rfl)

/-- The comment loop with its `continue` is equivalent to first dropping
the deleted-author comments. -/
theorem foldl_stepComment_filter (nlp : NLP) :
    ∀ (l : List RComment) (st : PostState),
      l.foldl (stepComment nlp) st
        = (l.filter (fun c => c.author.isSome)).foldl (stepComment nlp) st := by
  intro l
  induction l with
  | nil => intro st; rfl
  | cons c l ih =>
    intro st
    cases h : c.author with
    | none =>
      have hst : stepComment nlp st c = st := by simp [stepComment, h]
      simp [List.filter_cons, h, List.foldl_cons, hst, ih]
    | some a =>
      simp [List.filter_cons, h, List.foldl_cons, ih]

/-- The comment loop appends one comment record and one sentiment entry per
kept (non-deleted) comment. -/
theorem foldl_stepComment_lengths (nlp : NLP) :
    ∀ (l : List RComment) (st : PostState),
      ((l.foldl (stepComment nlp) st).comments.length
          = st.comments.length + (l.filter (fun c => c.author.isSome)).length) ∧
      ((l.foldl (stepComment nlp) st).sentiments.length
          = st.sentiments.length + (l.filter (fun c => c.author.isSome)).length) := by
  intro l
  induction l with
  | nil => intro st; simp
  | cons c l ih =>
    intro st
    cases h : c.author with
    | none =>
      have hst : stepComment nlp st c = st := by simp [stepComment, h]
      simp [List.filter_cons, h, List.foldl_cons, hst, ih st]
    | some a =>
      have h1 := (ih (stepComment nlp st c)).1
      have h2 := (ih (stepComment nlp st c)).2
      have hc : (stepComment nlp st c).comments.length = st.comments.length + 1 := by
        simp [stepComment, h]
      have hs : (stepComment nlp st c).sentiments.length = st.sentiments.length + 1 := by
        simp [stepComment, h]
      have hf : ((c :: l).filter (fun c => c.author.isSome)).length
          = (l.filter (fun c => c.author.isSome)).length + 1 := by
        simp [List.filter_cons, h]
      rw [List.foldl_cons, hf]
      exact ⟨by omega, by omega⟩

/-- Every rational polarity falls in exactly one of the three distribution
buckets of lines 349-353. -/
theorem sentiment_trichotomy (l : List ℚ) :
    l.countP (fun s => decide (s > mkRat 1 10))
      + l.countP (fun s => decide (mkRat (-1) 10 ≤ s ∧ s ≤ mkRat 1 10))
      + l.countP (fun s => decide (s < mkRat (-1) 10)) = l.length := by
  have hT : (mkRat (-1) 10 : ℚ) < mkRat 1 10 := by decide
  induction l with
  | nil => rfl
  | cons a l ih =>
    simp only [List.countP_cons, List.length_cons, decide_eq_true_eq]
    by_cases h1 : a > mkRat 1 10
    · have h2 : ¬(mkRat (-1) 10 ≤ a ∧ a ≤ mkRat 1 10) := by
        rintro ⟨-, hb⟩; linarith
      have h3 : ¬(a < mkRat (-1) 10) := by linarith
      rw [if_pos h1, if_neg h2, if_neg h3]
      omega
    · by_cases h3 : a < mkRat (-1) 10
      · have h2 : ¬(mkRat (-1) 10 ≤ a ∧ a ≤ mkRat 1 10) := by
          rintro ⟨ha, -⟩; linarith
        rw [if_neg h1, if_neg h2, if_pos h3]
        omega
      · have h2 : (mkRat (-1) 10 ≤ a ∧ a ≤ mkRat 1 10) := ⟨by linarith, by linarith⟩
        rw [if_neg h1, if_pos h2, if_neg h3]
        omega

/-- C10: comments with a deleted (absent) author are skipped before any
analysis: the whole analysis output coincides with the analysis of the
author-bearing comments among the first `commentLimit` fetched ones; the
sentiment distribution counts sum to the analyzed comment count; and the
comment count is the number of kept comments, bounded by the limit. -/
theorem deleted_authors_skipped (nlp : NLP) (lim : Nat) (cs : List RComment) :
    analyzeComments nlp lim cs
        = analyzeComments nlp lim ((cs.take lim).filter (fun c => c.author.isSome)) ∧
    (analyzeComments nlp lim cs).dist_pos + (analyzeComments nlp lim cs).dist_neu
        + (analyzeComments nlp lim cs).dist_neg
        = (analyzeComments nlp lim cs).comment_count ∧
    (analyzeComments nlp lim cs).comment_count
        = ((cs.take lim).filter (fun c => c.author.isSome)).length ∧
    (analyzeComments nlp lim cs).comment_count ≤ lim := by
  have hlen : ((cs.take lim).filter (fun c => c.author.isSome)).length ≤ lim := by
    have h1 := List.length_filter_le (fun c => c.author.isSome) (cs.take lim)
    have h2 : (cs.take lim).length ≤ lim := by
      simp [List.length_take]
    omega
  have hst : List.foldl (stepComment nlp) ⟨[], "", [], []⟩ (cs.take lim)
      = List.foldl (stepComment nlp) ⟨[], "", [], []⟩
          (((cs.take lim).filter (fun c => c.author.isSome)).take lim) := by
    rw [List.take_of_length_le hlen]
    exact foldl_stepComment_filter nlp (cs.take lim) _
  have hL := foldl_stepComment_lengths nlp (cs.take lim)
    (⟨[], "", [], []⟩ : PostState)
  have hL1 := hL.1
  have hL2 := hL.2
  simp only [List.length_nil] at hL1 hL2
  refine ⟨?_, ?_, ?_, ?_⟩
  · unfold analyzeComments
    rw [hst]
  · simp only [analyzeComments]
    rw [sentiment_trichotomy]
    omega
  · simp only [analyzeComments]
    omega
  · simp only [analyzeComments]
    omega

/-- The comment loop only ever appends comment records whose stored label
is the threshold label of their stored polarity. -/
theorem comments_label_inv (nlp : NLP) :
    ∀ (l : List RComment) (st : PostState),
      (∀ c ∈ st.comments, c.label = labelOf c.polarity) →
      ∀ c ∈ (l.foldl (stepComment nlp) st).comments, c.label = labelOf c.polarity := by
  intro l
  induction l with
  | nil => intro st h; exact h
  | cons c l ih =>
    intro st h
    rw [List.foldl_cons]
    refine ih _ ?_
    intro d hd
    cases hauth : c.author with
    | none =>
      have hst : stepComment nlp st c = st := by simp [stepComment, hauth]
      rw [hst] at hd
      exact h d hd
    | some a =>
      simp only [stepComment, hauth, List.mem_append, List.mem_singleton] at hd
      rcases hd with hd | hd
      · exact h d hd
      · subst hd
        rfl

/-- The topic-summary loop only ever appends summaries whose label is the
threshold label of their average sentiment. -/
theorem topics_label_inv (stc : List CommentOut) :
    ∀ (groups : List (String × List Nat)) (acc : List TopicOut × ℚ),
      (∀ t ∈ acc.1, t.label = labelOf t.avg_sentiment) →
      ∀ t ∈ (groups.foldl (topicFoldStep stc) acc).1,
        t.label = labelOf t.avg_sentiment := by
  intro groups
  induction groups with
  | nil => intro acc h; exact h
  | cons g groups ih =>
    intro acc h
    rw [List.foldl_cons]
    refine ih _ ?_
    intro t ht
    by_cases hg : g.2.length > 1
    · simp only [topicFoldStep, if_pos hg, List.mem_append, List.mem_singleton] at ht
      rcases ht with ht | ht
      · exact h t ht
      · subst ht
        rfl
    · simp only [topicFoldStep, if_neg hg] at ht
      exact h t ht

/-- C1: the three-way sentiment label is a pure function of polarity under
the fixed strict thresholds: "positive" exactly when the polarity strictly
exceeds 0.1, "negative" exactly when it is strictly below -0.1, and
"neutral" otherwise (both boundary values 0.1 and -0.1 are neutral); and
this same rule relates the label and polarity stored at every labelling
site: each analyzed comment, the reported overall average of the post
analysis, each retained topic summary, and the trend analysis overall
average. -/
theorem sentiment_label_thresholds (p : ℚ) (nlp : NLP) (lim : Nat)
    (cs : List RComment) (subs : List SubInput) :
    (labelOf p = "positive" ↔ p > 1/10) ∧
    (labelOf p = "negative" ↔ p < -(1/10)) ∧
    labelOf (1/10) = "neutral" ∧ labelOf (-(1/10)) = "neutral" ∧
    (∀ c ∈ (analyzeComments nlp lim cs).commentsOut,
        c.label = labelOf c.polarity) ∧
    (analyzeComments nlp lim cs).overall_label
        = labelOf (analyzeComments nlp lim cs).average_polarity ∧
    (∀ t ∈ (analyzeComments nlp lim cs).topic_analysis,
        t.label = labelOf t.avg_sentiment) ∧
    (analyzeTrendsCore nlp subs).sentiment_label
        = labelOf (analyzeTrendsCore nlp subs).average_polarity := by
  have e2 : (mkRat (-1) 10 : ℚ) = -(1/10) := by rw [Rat.mkRat_eq_div]; norm_num
  have e1 : (mkRat 1 10 : ℚ) = 1/10 := by rw [Rat.mkRat_eq_div]; norm_num
  have hT : (mkRat (-1) 10 : ℚ) < mkRat 1 10 := by decide
  rw [← e2, ← e1]
  refine ⟨?_, ?_, ?_, ?_, ?_, ?_, ?_, ?_⟩
  · unfold labelOf
    split_ifs with h1 h2
    · exact iff_of_true rfl h1
    · exact iff_of_false (by decide) h1
    · exact iff_of_false (by decide) h1
  · unfold labelOf
    split_ifs with h1 h2
    · exact iff_of_false (by decide) (by linarith)
    · exact iff_of_true rfl h2
    · exact iff_of_false (by decide) h2
  · unfold labelOf
    rw [if_neg (by linarith), if_neg (by linarith)]
  · unfold labelOf
    rw [if_neg (by linarith), if_neg (by linarith)]
  · intro c hc
    simp only [analyzeComments] at hc
    exact comments_label_inv nlp (cs.take lim) ⟨[], "", [], []⟩
      (by intro d hd; simp at hd) c (List.take_subset 20 _ hc)
  · rfl
  · intro t ht
    simp only [analyzeComments, topicSummaries] at ht
    exact topics_label_inv _ _ _ (by intro d hd; simp at hd) t ht
  · rfl

/-- A comment of an `analyze_reddit_post` run, establishing the labelling
site of `sentiment_label_thresholds` at a concrete input. -/
def nlpW : NLP :=
  { tokenize := splitTok, lemmatize := id, stop := [],
    sentimentOf := fun s => (if strIn "great" s then mkRat 1 2 else 0, 0) }

def csW : List RComment := [⟨"c1", some "u1", 1, "great product"⟩]

def cW : CommentOut := ⟨"c1", "u1", 1, "great product", mkRat 1 2, 0, "positive"⟩

/-- Witness for `sentiment_label_thresholds` at a concrete comment. -/
theorem sentiment_label_thresholds_witness :
    cW.label = labelOf cW.polarity ∧ (mkRat 1 2 : ℚ) > 1/10 :=
  ⟨(sentiment_label_thresholds 0 nlpW 100 csW []).2.2.2.2.1 cW (by decide),
   ((sentiment_label_thresholds (mkRat 1 2) nlpW 100 csW []).1).mp
     (by unfold labelOf; rw [if_pos (by decide)])⟩

/-- Inserting an entry into a counter list sorted by `orderedInsert`
preserves, for every fixed count, the subsequence of entries carrying that
count (the stability of insertion sort at the level of count classes). -/
theorem orderedInsert_filter_count (a : String × Nat) (k : Nat) :
    ∀ l : List (String × Nat),
      (l.orderedInsert countGE a).filter (fun x => x.2 == k)
        = if a.2 = k then a :: l.filter (fun x => x.2 == k)
          else l.filter (fun x => x.2 == k) := by
  intro l
  induction l with
  | nil =>
    by_cases h : a.2 = k <;>
      simp [List.orderedInsert, List.filter_cons, h]
  | cons b l ih =>
    by_cases hr : countGE a b
    · rw [List.orderedInsert_of_le countGE l hr]
      by_cases h : a.2 = k <;>
        by_cases hb : b.2 = k <;>
          simp [List.filter_cons, h, hb]
    · have hlt : a.2 < b.2 := by
        simp only [countGE, not_le] at hr
        exact hr
      simp only [List.orderedInsert, if_neg hr]
      by_cases h : a.2 = k
      · have hb : ¬(b.2 = k) := by omega
        simp [List.filter_cons, hb, ih, h]
      · by_cases hb : b.2 = k <;>
          simp [List.filter_cons, ih, h, hb]

/-- The stable sort underlying `mostCommon` preserves, for every fixed
count, the original first-appearance order of the entries with that count. -/
theorem insertionSort_filter_count (k : Nat) :
    ∀ l : List (String × Nat),
      (l.insertionSort countGE).filter (fun x => x.2 == k)
        = l.filter (fun x => x.2 == k) := by
  intro l
  induction l with
  | nil => rfl
  | cons a l ih =>
    show ((List.insertionSort countGE l).orderedInsert countGE a).filter _ = _
    rw [orderedInsert_filter_count a k]
    by_cases h : a.2 = k <;> simp [List.filter_cons, h, ih]

/-- Folding a token into a counter keeps existing keys in place and appends
a fresh key at the end, so counter keys are in first-appearance order. -/
theorem counterAdd_keys (w : String) :
    ∀ c : List (String × Nat),
      (counterAdd c w).map Prod.fst
        = if w ∈ c.map Prod.fst then c.map Prod.fst
          else c.map Prod.fst ++ [w] := by
  intro c
  induction c with
  | nil => simp [counterAdd]
  | cons kn rest ih =>
    obtain ⟨k, n⟩ := kn
    by_cases h : k = w
    · simp [counterAdd, h]
    · have hkw : w ≠ k := fun hh => h hh.symm
      simp only [counterAdd, if_neg h, List.map_cons, ih]
      by_cases hm : w ∈ rest.map Prod.fst <;>
        simp [List.mem_cons, hm, hkw]

/-- C7: `mostCommon` returns at most `n` entries, sorted by descending
count; the underlying sort is stable (for every fixed count it preserves
the counter's entry order, which by `counterAdd` is first-appearance order
of the folded tokens); and on the counter obtained by folding
a,a,a,b,b,b,c,c,c,c,c (so counts a=3, b=3, c=5 and "a" first seen before
"b"), the top-2 list is [(c,5),(a,3)]. -/
theorem top_keywords_ranking (c : List (String × Nat)) (n k : Nat) (w : String) :
    (mostCommon c n).length ≤ n ∧
    List.Sorted countGE (mostCommon c n) ∧
    ((c.insertionSort countGE).filter (fun x => x.2 == k)
        = c.filter (fun x => x.2 == k)) ∧
    ((counterAdd c w).map Prod.fst
        = if w ∈ c.map Prod.fst then c.map Prod.fst
          else c.map Prod.fst ++ [w]) ∧
    ["a", "a", "a", "b", "b", "b", "c", "c", "c", "c", "c"].foldl counterAdd []
        = [("a", 3), ("b", 3), ("c", 5)] ∧
    mostCommon [("a", 3), ("b", 3), ("c", 5)] 2 = [("c", 5), ("a", 3)] := by
  refine ⟨?_, ?_, insertionSort_filter_count k c, counterAdd_keys w c,
    by decide, by decide⟩
  · unfold mostCommon
    simp [List.length_take]
  · exact List.Pairwise.sublist (List.take_sublist n _)
      (List.sorted_insertionSort countGE _)

/-- The member list of a topic group key ("topics[k]" read-back). -/
def membersOf {α : Type} (gs : List (String × List α)) (k : String) : List α :=
  ((gs.find? (fun g => g.1 = k)).map Prod.snd).getD []

/-- Appending to a group touches exactly the given key's member list. -/
theorem membersOf_addGroup {α : Type} (k' k : String) (x : α) :
    ∀ gs : List (String × List α),
      membersOf (addGroup gs k x) k'
        = membersOf gs k' ++ (if k' = k then [x] else []) := by
  intro gs
  induction gs with
  | nil =>
    by_cases h : k' = k
    · subst h
      unfold addGroup membersOf
      rw [List.find?_cons_of_pos _ (by simp)]
      simp
    · have hkk : ¬(k = k') := fun hh => h hh.symm
      unfold addGroup membersOf
      rw [List.find?_cons_of_neg _ (by simpa using hkk)]
      simp [h]
  | cons g gs ih =>
    obtain ⟨t, xs⟩ := g
    show membersOf (if t = k then (t, xs ++ [x]) :: gs
        else (t, xs) :: addGroup gs k x) k' = _
    by_cases ht : t = k
    · rw [if_pos ht]
      by_cases h : t = k'
      · have hx : k' = k := by rw [← h, ht]
        unfold membersOf
        rw [List.find?_cons_of_pos _ (by simpa using h),
          List.find?_cons_of_pos _ (by simpa using h)]
        simp [hx]
      · have hx : ¬(k' = k) := by
          rw [← ht]; exact fun hh => h hh.symm
        unfold membersOf
        rw [List.find?_cons_of_neg _ (by simpa using h),
          List.find?_cons_of_neg _ (by simpa using h)]
        simp [hx]
    · rw [if_neg ht]
      by_cases h : t = k'
      · unfold membersOf
        rw [List.find?_cons_of_pos _ (by simpa using h),
          List.find?_cons_of_pos _ (by simpa using h)]
        have hx : ¬(k' = k) := by
          rw [← h]; exact fun hh => ht hh
        simp [hx]
      · unfold membersOf at ih ⊢
        rw [List.find?_cons_of_neg _ (by simpa using h),
          List.find?_cons_of_neg _ (by simpa using h)]
        exact ih

/-- The indices (starting at `i`) of the comments whose assigned topic is
`k`, in scan order; this is the first-match-by-rank semantics of the claim
for the per-post comment grouping. -/
def idxMatches (tks : List (String × Nat)) : Nat → List CommentOut → String → List Nat
  | _, [], _ => []
  | i, c :: cs, k =>
    (if assignedTopic tks c = some k then [i] else []) ++ idxMatches tks (i + 1) cs k

/-- The topic-grouping loop produces, for every key, exactly the indices of
the comments assigned to that key, in scan order. -/
theorem buildTopicsGo_members (tks : List (String × Nat)) :
    ∀ (cs : List CommentOut) (i : Nat) (gs : List (String × List Nat)) (k : String),
      membersOf (buildTopicsGo tks i gs cs) k
        = membersOf gs k ++ idxMatches tks i cs k := by
  intro cs
  induction cs with
  | nil => intro i gs k; simp [buildTopicsGo, idxMatches]
  | cons c cs ih =>
    intro i gs k
    show membersOf (buildTopicsGo tks (i + 1)
        (match assignedTopic tks c with
         | some k0 => addGroup gs k0 i
         | none => gs) cs) k = _
    cases hA : assignedTopic tks c with
    | none =>
      simp only [hA, idxMatches, if_neg (by simp [hA] : ¬(assignedTopic tks c = some k))]
      rw [ih]
      simp
    | some k0 =>
      by_cases hk : k = k0
      · subst hk
        simp only [hA, ih, membersOf_addGroup, idxMatches]
        simp [List.append_assoc]
      · have hne : ¬(assignedTopic tks c = some k) := by
          rw [hA]; intro hh; exact hk (Option.some.inj hh).symm
        simp only [hA, ih, membersOf_addGroup, idxMatches, if_neg hne,
          if_neg hk]
        simp
        exact fun hh => hk hh.symm

/-- Membership in the scan-order match list, characterized by the comment
at the offset position. -/
theorem mem_idxMatches (tks : List (String × Nat)) (k : String) :
    ∀ (cs : List CommentOut) (j i : Nat),
      i ∈ idxMatches tks j cs k
        ↔ ∃ d c, i = j + d ∧ cs.get? d = some c ∧ assignedTopic tks c = some k := by
  intro cs
  induction cs with
  | nil =>
    intro j i
    simp [idxMatches]
  | cons c cs ih =>
    intro j i
    constructor
    · intro h
      simp only [idxMatches, List.mem_append] at h
      by_cases hA : assignedTopic tks c = some k
      · rcases h with h | h
        · rw [if_pos hA] at h
          exact ⟨0, c, by simpa using h, rfl, hA⟩
        · rcases (ih (j + 1) i).mp h with ⟨d, c0, hi, hg, hA0⟩
          exact ⟨d + 1, c0, by omega, hg, hA0⟩
      · rcases h with h | h
        · rw [if_neg hA] at h
          simp at h
        · rcases (ih (j + 1) i).mp h with ⟨d, c0, hi, hg, hA0⟩
          exact ⟨d + 1, c0, by omega, hg, hA0⟩
    · rintro ⟨d, c0, hi, hg, hA⟩
      cases d with
      | zero =>
        have hc : c = c0 := by
          simpa using hg
        subst hc
        simp [idxMatches, hA, hi]
      | succ d =>
        have hg' : cs.get? d = some c0 := hg
        have hmem : i ∈ idxMatches tks (j + 1) cs k :=
          (ih (j + 1) i).mpr ⟨d, c0, by omega, hg', hA⟩
        simp [idxMatches, List.mem_append, hmem]

/-- A step of the inner trend-grouping loop only creates "word"-keyed
groups. -/
theorem addGroup_key_inv {α : Type} (k : String) (x : α) :
    ∀ gs : List (String × List α),
      (∀ g ∈ gs, g.1 = k) → ∀ g ∈ addGroup gs k x, g.1 = k := by
  intro gs
  induction gs with
  | nil => intro _ g hg; simp [addGroup] at hg; simp [hg]
  | cons g0 gs ih =>
    obtain ⟨t, xs⟩ := g0
    intro hall g hg
    by_cases ht : t = k
    · simp only [addGroup, if_pos ht] at hg
      rcases List.mem_cons.mp hg with hg | hg
      · simp [hg, ht]
      · exact hall g (List.mem_cons_of_mem _ hg)
    · simp only [addGroup, if_neg ht] at hg
      rcases List.mem_cons.mp hg with hg | hg
      · exact hg ▸ hall (t, xs) (List.mem_cons_self _ _)
      · exact ih (fun g1 hg1 => hall g1 (List.mem_cons_of_mem _ hg1)) g hg

/-- Folding preserves any invariant preserved by each step. -/
theorem foldl_preserve {α β : Type} (P : β → Prop) (f : β → α → β)
    (hstep : ∀ b a, P b → P (f b a)) :
    ∀ (l : List α) (b : β), P b → P (l.foldl f b) := by
  intro l
  induction l with
  | nil => intro b hb; exact hb
  | cons a l ih => intro b hb; exact ih _ (hstep b a hb)

/-- Every group key produced by the trend topic-grouping loop is the
literal string "word" (a consequence of the dict tuple-unpacking at
line 555). -/
theorem trendTopics_keys (trending : List (String × Nat))
    (posts : List TrendPostOut) :
    ∀ g ∈ trendTopics trending posts, g.1 = "word" := by
  unfold trendTopics
  refine foldl_preserve
    (fun gs : List (String × List String) => ∀ g ∈ gs, g.1 = "word")
    _ ?_ _ [] (by simp)
  intro gs _ hgs
  refine foldl_preserve
    (fun gs2 : List (String × List String) => ∀ g ∈ gs2, g.1 = "word")
    _ ?_ _ gs hgs
  intro gs2 p hgs2
  by_cases hp : strIn "word" (strLower p.title)
  · simpa [hp] using addGroup_key_inv "word" p.id gs2 hgs2
  · simpa [hp] using hgs2

/-- C2 (amended): in the per-post comment analysis, a comment index `i`
lies in a topic group `k` exactly when the comment at position `i` is
assigned topic `k` by the first-match scan over the ranked top keywords
(substring match against the stored lower-cased preview text), so every
record is assigned to at most one topic and non-matching records are
unassigned; in the cross-subreddit trend analysis, however, the grouping
loop does not first-match over the ranked keywords: every group it forms is
keyed by the literal string "word" (dict tuple-unpacking at line 555). -/
theorem first_match_topic_assignment (tks : List (String × Nat))
    (cs : List CommentOut) (k k' : String) (i : Nat)
    (trending : List (String × Nat)) (posts : List TrendPostOut) :
    (i ∈ membersOf (buildTopics tks cs) k ↔
        ∃ c, cs.get? i = some c ∧ assignedTopic tks c = some k) ∧
    (i ∈ membersOf (buildTopics tks cs) k →
        i ∈ membersOf (buildTopics tks cs) k' → k = k') ∧
    (∀ g ∈ trendTopics trending posts, g.1 = "word") := by
  have hchar : ∀ kk, i ∈ membersOf (buildTopics tks cs) kk ↔
      ∃ c, cs.get? i = some c ∧ assignedTopic tks c = some kk := by
    intro kk
    unfold buildTopics
    rw [buildTopicsGo_members]
    have hnil : membersOf ([] : List (String × List Nat)) kk = [] := rfl
    rw [hnil, List.nil_append, mem_idxMatches]
    constructor
    · rintro ⟨d, c, hi, hg, hA⟩
      have hd : d = i := by omega
      subst hd
      exact ⟨c, hg, hA⟩
    · rintro ⟨c, hg, hA⟩
      exact ⟨i, c, by omega, hg, hA⟩
  refine ⟨hchar k, ?_, trendTopics_keys trending posts⟩
  intro h1 h2
  rcases (hchar k).mp h1 with ⟨c, hg, hA⟩
  rcases (hchar k').mp h2 with ⟨c', hg', hA'⟩
  rw [hg] at hg'
  cases Option.some.inj hg'
  rw [hA] at hA'
  exact Option.some.inj hA'

/-- C2 counterexample: in the trend analysis, with ranked keywords
[("sword",1),("fighting",1)] and one post titled "Sword fighting", the
claim's first-match rule would assign the post to "sword" (which does match
the lower-cased title); the code instead groups it (twice) under the
literal key "word", which is not a ranked keyword at all. -/
theorem first_match_topic_assignment_counterexample :
    trendTopics [("sword", 1), ("fighting", 1)]
        [⟨"p1", "Sword fighting", "all", 100, 0⟩]
      = [("word", ["p1", "p1"])] ∧
    strIn "sword" (strLower "Sword fighting") = true ∧
    "word" ∉ ["sword", "fighting"] := by
  refine ⟨by decide, by decide, by decide⟩

/-- Witness for `first_match_topic_assignment` at a concrete comment list:
comment 0 ("great product", containing the ranked keyword "great") lies in
the "great" topic group, and the concrete trend group is keyed "word". -/
theorem first_match_topic_assignment_witness :
    0 ∈ membersOf (buildTopics [("great", 2)] [cW]) "great" ∧
    ("word", ["p1", "p1"]).1 = "word" :=
  ⟨(first_match_topic_assignment [("great", 2)] [cW] "great" "great" 0 [] []).1.mpr
      ⟨cW, rfl, by decide⟩,
   (first_match_topic_assignment [("great", 2)] [cW] "great" "great" 0
      [("sword", 1), ("fighting", 1)]
      [⟨"p1", "Sword fighting", "all", 100, 0⟩]).2.2
      ("word", ["p1", "p1"]) (by decide)⟩

/-- The failing input for C3: one subreddit, one post titled
"Sword fighting" (its keyword tokens are "sword" and "fighting"). -/
def pSword : TrendPost := ⟨"p1", "Sword fighting", "", 100, 0⟩

/-- C3: evaluating the trend analysis at the failing input: the trending
keywords are "sword" and "fighting", yet the only topic label in
`topic_analysis` is the literal string "word", which is not a trending
keyword; the comment at line 555 ("use the top 10 keywords as topics")
says otherwise, but `for keyword, _ in trending_keywords[:10]`
tuple-unpacks each keyword dict into its two keys, binding `keyword` to
"word", and every iteration re-matches "word" against the titles. -/
theorem trend_topic_label_is_word :
    ((analyzeTrendsCore nlpI [⟨"all", [.ok pSword]⟩]).trending_keywords.map
        Prod.fst = ["sword", "fighting"]) ∧
    ((analyzeTrendsCore nlpI [⟨"all", [.ok pSword]⟩]).topic_analysis.map
        (fun t => t.topic) = ["word"]) ∧
    ("word" ∉ (analyzeTrendsCore nlpI [⟨"all", [.ok pSword]⟩]).trending_keywords.map
        Prod.fst) := by
  refine ⟨by decide, by decide, by decide⟩

/-- The failing input for C4: one subreddit, one post titled
"Word games fun" (three keyword tokens, and a title containing "word"). -/
def pWordGames : TrendPost := ⟨"q1", "Word games fun", "", 100, 2⟩

/-- C4: evaluating the trend analysis at the failing input: the single
collected post is matched on every one of the three iterations of the
topic loop, so the retained "word" topic reports post_count 3 while only
one distinct post exists (its sample list has a single title), violating
the at-least-2-members invariant announced by the comment at line 563. -/
theorem trend_topic_single_member_retained :
    ((analyzeTrendsCore nlpI [⟨"news", [.ok pWordGames]⟩]).topic_analysis.map
        (fun t => (t.topic, t.post_count, t.sample_posts))
      = [("word", 3, ["Word games fun"])]) ∧
    (postsOf nlpI [⟨"news", [.ok pWordGames]⟩]).length = 1 := by
  refine ⟨by decide, by decide⟩

/-- A fold whose step fixes every list element is the identity. -/
theorem foldl_fix_id {α β : Type} (f : β → α → β) (l : List α)
    (h : ∀ x ∈ l, ∀ acc, f acc x = acc) : ∀ i, l.foldl f i = i := by
  induction l with
  | nil => intro i; rfl
  | cons a l ih =>
    intro i
    rw [List.foldl_cons, h a (List.mem_cons_self _ _)]
    exact ih (fun x hx acc => h x (List.mem_cons_of_mem _ hx) acc) i

/-- A dict write only adds the written value or keeps existing entries. -/
theorem mem_dictSet :
    ∀ (d : List (String × SubStats)) (k : String) (v : SubStats)
      (kv : String × SubStats), kv ∈ dictSet d k v → kv ∈ d ∨ kv.2 = v := by
  intro d
  induction d with
  | nil =>
    intro k v kv h
    simp only [dictSet] at h
    rcases List.mem_singleton.mp h with h
    exact Or.inr (by simp [h])
  | cons g d ih =>
    obtain ⟨k0, v0⟩ := g
    intro k v kv h
    by_cases hk : k0 = k
    · simp only [dictSet, if_pos hk] at h
      rcases List.mem_cons.mp h with h | h
      · exact Or.inr (by simp [h])
      · exact Or.inl (List.mem_cons_of_mem _ h)
    · simp only [dictSet, if_neg hk] at h
      rcases List.mem_cons.mp h with h | h
      · exact Or.inl (h ▸ List.mem_cons_self _ _)
      · rcases ih k v kv h with h | h
        · exact Or.inl (List.mem_cons_of_mem _ h)
        · exact Or.inr h

/-- The finalized stats of an empty per-subreddit fetch trace. -/
def emptyOkStats : OkStats := ⟨0, 0, 0, [], [], 0, []⟩

/-- When every subreddit's fetch trace is empty, every stats entry is the
empty success entry. -/
theorem statsOf_empty_items (nlp : NLP) :
    ∀ (subs : List SubInput) (posts : List TrendPostOut)
      (d : List (String × SubStats)),
      (∀ kv ∈ d, kv.2 = SubStats.ok emptyOkStats) →
      (∀ s ∈ subs, s.items = []) →
      ∀ kv ∈ (collectSubs nlp (posts, d) subs).2,
        kv.2 = SubStats.ok emptyOkStats := by
  intro subs
  induction subs with
  | nil => intro posts d hd _ kv hkv; exact hd kv hkv
  | cons s rest ih =>
    intro posts d hd hsubs kv hkv
    have hs : s.items = [] := hsubs s (List.mem_cons_self _ _)
    have hrun : runSub nlp s.name posts ⟨0, 0, 0, [], []⟩ s.items
        = (posts, SubStats.ok emptyOkStats) := by
      rw [hs]; rfl
    rw [show collectSubs nlp (posts, d) (s :: rest)
        = collectSubs nlp ((runSub nlp s.name posts ⟨0, 0, 0, [], []⟩ s.items).1,
            dictSet d s.name (runSub nlp s.name posts ⟨0, 0, 0, [], []⟩ s.items).2)
            rest from rfl, hrun] at hkv
    refine ih posts (dictSet d s.name (SubStats.ok emptyOkStats)) ?_
      (fun s0 hs0 => hsubs s0 (List.mem_cons_of_mem _ hs0)) kv hkv
    intro kv0 hkv0
    rcases mem_dictSet d s.name (SubStats.ok emptyOkStats) kv0 hkv0 with h | h
    · exact hd kv0 h
    · exact h

/-- C6: with no records collected, no division is attempted and all the
"empty" defaults are produced: the post-comment analysis of an empty
comment list reports zero counts, average 0 and the neutral label, with
empty keyword and topic lists, and the tool returns it as a success; the
trend analysis over subreddits with empty fetch traces reports average
polarity 0, an empty trending-keyword list and an empty topic list, again
as a success result. -/
theorem empty_records_safe (nlp : NLP) (lim : Nat) (cid csec : Option String)
    (srt tp pid : String) (subs : List SubInput)
    (hcid : pyFalsy cid = false) (hcsec : pyFalsy csec = false)
    (hsort : validSorts.contains srt = true)
    (htp : validPeriods.contains tp = true)
    (hsubs : ∀ s ∈ subs, s.items = []) :
    analyzeComments nlp lim [] = ⟨0, 0, "neutral", 0, 0, 0, [], [], []⟩ ∧
    analyzeRedditPost cid csec srt lim (some pid) nlp []
        = .ok ⟨0, 0, "neutral", 0, 0, 0, [], [], []⟩ ∧
    (analyzeTrendsCore nlp subs).average_polarity = 0 ∧
    (analyzeTrendsCore nlp subs).trending_keywords = [] ∧
    (analyzeTrendsCore nlp subs).topic_analysis = [] ∧
    analyzeRedditTrends cid csec tp nlp subs
        = .ok (analyzeTrendsCore nlp subs) := by
  have hstats : ∀ kv ∈ statsOf nlp subs, kv.2 = SubStats.ok emptyOkStats :=
    statsOf_empty_items nlp subs [] [] (by simp) hsubs
  have hkw : (statsOf nlp subs).foldl mergeKeywordsStep [] = [] := by
    refine foldl_fix_id mergeKeywordsStep _ ?_ []
    intro kv hkv acc
    simp [mergeKeywordsStep, hstats kv hkv, emptyOkStats, counterMerge]
  have hsn : (statsOf nlp subs).foldl gatherSentsStep ([] : List ℚ) = [] := by
    refine foldl_fix_id gatherSentsStep _ ?_ []
    intro kv hkv acc
    simp [gatherSentsStep, hstats kv hkv, emptyOkStats]
  have hcore : analyzeComments nlp lim [] = ⟨0, 0, "neutral", 0, 0, 0, [], [], []⟩ := by
    simp [analyzeComments, mostCommon, buildTopics, buildTopicsGo, topicSummaries,
      (by decide : ¬((0 : ℚ) > mkRat 1 10)), (by decide : ¬((0 : ℚ) < mkRat (-1) 10))]
  have hsort' : srt ∈ validSorts := by simpa using hsort
  have htp' : tp ∈ validPeriods := by simpa using htp
  refine ⟨hcore, ?_, ?_, ?_, ?_, ?_⟩
  · simp [analyzeRedditPost, hcid, hcsec, hsort', hcore]
  · simp [analyzeTrendsCore, hsn]
  · simp [analyzeTrendsCore, hkw, mostCommon]
  · simp [analyzeTrendsCore, hkw, mostCommon, trendTopics, trendTopicSummaries]
  · simp [analyzeRedditTrends, hcid, hcsec, htp']

/-- Witness for `empty_records_safe` at concrete parameters. -/
theorem empty_records_safe_witness :
    analyzeComments nlpI 100 [] = ⟨0, 0, "neutral", 0, 0, 0, [], [], []⟩ ∧
    analyzeRedditTrends (some "id") (some "secret") "day" nlpI [⟨"all", []⟩]
        = .ok (analyzeTrendsCore nlpI [⟨"all", []⟩]) := by
  have h := empty_records_safe nlpI 100 (some "id") (some "secret") "top" "day"
    "abc" [⟨"all", []⟩] (by decide) (by decide) (by decide) (by decide)
    (by intro s hs; rcases List.mem_singleton.mp hs with h; simp [h])
  exact ⟨h.1, h.2.2.2.2.2⟩

/-- The stats result of one subreddit (independent of the incoming
`all_posts` accumulator, see `runSub_snd_indep`). -/
def subStatsF (nlp : NLP) (s : SubInput) : SubStats :=
  (runSub nlp s.name [] ⟨0, 0, 0, [], []⟩ s.items).2

/-- The posts one subreddit contributes to `all_posts`. -/
def subPostsF (nlp : NLP) (s : SubInput) : List TrendPostOut :=
  (runSub nlp s.name [] ⟨0, 0, 0, [], []⟩ s.items).1

/-- The per-subreddit stats do not depend on the posts accumulated so far. -/
theorem runSub_snd_indep (nlp : NLP) (name : String) :
    ∀ (items : List (Except String TrendPost)) (posts posts' : List TrendPostOut)
      (acc : SubAcc),
      (runSub nlp name posts acc items).2 = (runSub nlp name posts' acc items).2 := by
  intro items
  induction items with
  | nil => intro posts posts' acc; rfl
  | cons it rest ih =>
    intro posts posts' acc
    cases it with
    | error e => rfl
    | ok p => exact ih _ _ _

/-- The posts accumulator is a prefix of the posts result. -/
theorem runSub_fst_append (nlp : NLP) (name : String) :
    ∀ (items : List (Except String TrendPost)) (posts : List TrendPostOut)
      (acc : SubAcc),
      (runSub nlp name posts acc items).1
        = posts ++ (runSub nlp name [] acc items).1 := by
  intro items
  induction items with
  | nil => intro posts acc; simp [runSub]
  | cons it rest ih =>
    intro posts acc
    cases it with
    | error e => simp [runSub]
    | ok p =>
      show (runSub nlp name (posts ++ [_]) _ rest).1 = _
      rw [ih (posts ++ [_]) _]
      conv_rhs => rw [show (runSub nlp name [] acc (Except.ok p :: rest)).1
        = (runSub nlp name ([] ++ [_]) _ rest).1 from rfl, ih ([] ++ [_]) _]
      simp

/-- The subreddit loop decomposes into per-subreddit stats writes and
per-subreddit post contributions. -/
theorem collectSubs_decomp (nlp : NLP) :
    ∀ (subs : List SubInput) (posts : List TrendPostOut)
      (d : List (String × SubStats)),
      (collectSubs nlp (posts, d) subs).2
          = subs.foldl (fun d' s => dictSet d' s.name (subStatsF nlp s)) d ∧
      (collectSubs nlp (posts, d) subs).1
          = posts ++ subs.foldl (fun ps s => ps ++ subPostsF nlp s) [] := by
  intro subs
  induction subs with
  | nil => intro posts d; simp [collectSubs]
  | cons s rest ih =>
    intro posts d
    have hsnd : (runSub nlp s.name posts ⟨0, 0, 0, [], []⟩ s.items).2
        = subStatsF nlp s := runSub_snd_indep nlp s.name s.items posts [] _
    have hfst : (runSub nlp s.name posts ⟨0, 0, 0, [], []⟩ s.items).1
        = posts ++ subPostsF nlp s := runSub_fst_append nlp s.name s.items posts _
    have hstep : collectSubs nlp (posts, d) (s :: rest)
        = collectSubs nlp (posts ++ subPostsF nlp s,
            dictSet d s.name (subStatsF nlp s)) rest := by
      show collectSubs nlp ((runSub nlp s.name posts ⟨0, 0, 0, [], []⟩ s.items).1,
          dictSet d s.name (runSub nlp s.name posts ⟨0, 0, 0, [], []⟩ s.items).2)
          rest = _
      rw [hsnd, hfst]
    have hrest := ih (posts ++ subPostsF nlp s) (dictSet d s.name (subStatsF nlp s))
    rw [hstep]
    refine ⟨by rw [hrest.1]; rfl, ?_⟩
    rw [hrest.2]
    have hshift : ∀ (l : List SubInput) (ps qs : List TrendPostOut),
        l.foldl (fun acc x => acc ++ subPostsF nlp x) (ps ++ qs)
          = ps ++ l.foldl (fun acc x => acc ++ subPostsF nlp x) qs := by
      intro l
      induction l with
      | nil => intro ps qs; rfl
      | cons x l ihl =>
        intro ps qs
        rw [List.foldl_cons, List.foldl_cons, List.append_assoc]
        exact ihl ps _
    rw [List.foldl_cons, List.append_assoc]
    congr 1
    have := hshift rest (subPostsF nlp s) []
    simpa using this.symm

/-- Writing a fresh key appends it at the end of the dict. -/
theorem dictSet_fresh (k : String) (v : SubStats) :
    ∀ d : List (String × SubStats),
      k ∉ d.map Prod.fst → dictSet d k v = d ++ [(k, v)] := by
  intro d
  induction d with
  | nil => intro _; rfl
  | cons g d ih =>
    obtain ⟨k0, v0⟩ := g
    intro h
    have h0 : ¬(k0 = k) := by
      intro hh
      exact h (by simp [hh])
    simp only [dictSet, if_neg h0, List.cons_append]
    rw [ih (by intro hh; exact h (by simp [hh]))]

/-- With pairwise distinct subreddit names, the stats dict after the loop
is exactly one entry per subreddit, in order. -/
theorem statsOf_eq_map (nlp : NLP) :
    ∀ (subs : List SubInput) (d : List (String × SubStats)),
      (subs.map SubInput.name).Nodup →
      (∀ s ∈ subs, s.name ∉ d.map Prod.fst) →
      subs.foldl (fun d' s => dictSet d' s.name (subStatsF nlp s)) d
        = d ++ subs.map (fun s => (s.name, subStatsF nlp s)) := by
  intro subs
  induction subs with
  | nil => intro d _ _; simp
  | cons s rest ih =>
    intro d hnd hfresh
    rw [List.foldl_cons,
      dictSet_fresh s.name (subStatsF nlp s) d (hfresh s (List.mem_cons_self _ _))]
    have hnd' : (rest.map SubInput.name).Nodup := by
      rw [List.map_cons, List.nodup_cons] at hnd
      exact hnd.2
    have hsname : s.name ∉ rest.map SubInput.name := by
      rw [List.map_cons, List.nodup_cons] at hnd
      exact hnd.1
    rw [ih (d ++ [(s.name, subStatsF nlp s)]) hnd' ?_]
    · simp
    · intro s0 hs0
      simp only [List.map_append, List.mem_append] at *
      push_neg
      refine ⟨fun hh => (hfresh s0 (List.mem_cons_of_mem _ hs0)) hh, ?_⟩
      simp only [List.map_cons, List.map_nil, List.mem_singleton]
      intro hh
      exact hsname (hh ▸ List.mem_map_of_mem SubInput.name hs0)

/-- The stats dict is one entry per subreddit when names are distinct. -/
theorem statsOf_map (nlp : NLP) (subs : List SubInput)
    (h : (subs.map SubInput.name).Nodup) :
    statsOf nlp subs = subs.map (fun s => (s.name, subStatsF nlp s)) := by
  unfold statsOf
  rw [(collectSubs_decomp nlp subs [] []).1,
    statsOf_eq_map nlp subs [] h (by simp)]
  simp

/-- Processing a fetch trace that raises after `pre` successful posts
yields the error entry. -/
theorem runSub_error (nlp : NLP) (name e : String)
    (rest : List (Except String TrendPost)) :
    ∀ (pre : List TrendPost) (posts : List TrendPostOut) (acc : SubAcc),
      (runSub nlp name posts acc (pre.map Except.ok ++ Except.error e :: rest)).2
        = SubStats.err (msgSubErr ++ e) := by
  intro pre
  induction pre with
  | nil => intro posts acc; rfl
  | cons p pre ih => intro posts acc; exact ih _ _

/-- A fold over the stats dict that ignores error entries does not see an
error entry spliced into the middle. -/
theorem foldl_skip_err {β : Type} (f : β → String × SubStats → β)
    (hf : ∀ (acc : β) (nm m : String), f acc (nm, SubStats.err m) = acc)
    (X Y : List (String × SubStats)) (nm m : String) (i : β) :
    (X ++ (nm, SubStats.err m) :: Y).foldl f i = (X ++ Y).foldl f i := by
  rw [List.foldl_append, List.foldl_append, List.foldl_cons, hf]

/-- Dict lookup finds a value spliced at the first occurrence of its key. -/
theorem dictFind_middle (name : String) (v : SubStats)
    (L1 L2 : List (String × SubStats)) (h : name ∉ L1.map Prod.fst) :
    dictFind (L1 ++ (name, v) :: L2) name = some v := by
  unfold dictFind
  rw [List.find?_append]
  have h1 : L1.find? (fun kv => kv.1 = name) = none := by
    rw [List.find?_eq_none]
    intro x hx
    simp only [decide_eq_true_eq]
    intro hh
    exact h (hh ▸ List.mem_map_of_mem Prod.fst hx)
  rw [h1, Option.none_or, List.find?_cons_of_pos _ (by simp)]
  rfl

/-- Dict lookup of a different key ignores a spliced-in entry. -/
theorem dictFind_skip_middle (k name : String) (v : SubStats)
    (L1 L2 : List (String × SubStats)) (h : ¬(k = name)) :
    dictFind (L1 ++ (name, v) :: L2) k = dictFind (L1 ++ L2) k := by
  unfold dictFind
  rw [List.find?_append, List.find?_append,
    List.find?_cons_of_neg _ (by simpa using fun hh => h hh.symm)]

/-- C5 (amended): a failure while fetching or analyzing one subreddit is
caught per-subreddit: that subreddit's `subreddit_stats` entry carries the
error marker, its keyword and sentiment data are excluded from the merged
keyword table, the global average polarity (and its label) and the
activity ranking — all of which equal those of a run without the failing
subreddit — the other subreddits' stats entries are unaffected, and the
whole request still returns a success result.  (Posts of the failing
subreddit fetched before the failure do remain in the collected post list,
so `topic_analysis` and `trending_posts` are not covered by this
exclusion; see the counterexample.) -/
theorem trend_partial_failure (nlp : NLP) (A B : List SubInput) (name : String)
    (pre : List TrendPost) (e : String) (rest : List (Except String TrendPost))
    (cid csec : Option String) (tp : String)
    (hnodup : (((A ++ ⟨name, pre.map Except.ok ++ Except.error e :: rest⟩ :: B).map
        SubInput.name)).Nodup)
    (hcid : pyFalsy cid = false) (hcsec : pyFalsy csec = false)
    (htp : validPeriods.contains tp = true) :
    dictFind
        (statsOf nlp (A ++ ⟨name, pre.map Except.ok ++ Except.error e :: rest⟩ :: B))
        name = some (SubStats.err (msgSubErr ++ e)) ∧
    (∀ s ∈ A ++ B,
      dictFind
          (statsOf nlp (A ++ ⟨name, pre.map Except.ok ++ Except.error e :: rest⟩ :: B))
          s.name
        = dictFind (statsOf nlp (A ++ B)) s.name) ∧
    (analyzeTrendsCore nlp (A ++ ⟨name, pre.map Except.ok ++ Except.error e :: rest⟩ :: B)).trending_keywords
        = (analyzeTrendsCore nlp (A ++ B)).trending_keywords ∧
    (analyzeTrendsCore nlp (A ++ ⟨name, pre.map Except.ok ++ Except.error e :: rest⟩ :: B)).average_polarity
        = (analyzeTrendsCore nlp (A ++ B)).average_polarity ∧
    (analyzeTrendsCore nlp (A ++ ⟨name, pre.map Except.ok ++ Except.error e :: rest⟩ :: B)).sentiment_label
        = (analyzeTrendsCore nlp (A ++ B)).sentiment_label ∧
    (analyzeTrendsCore nlp (A ++ ⟨name, pre.map Except.ok ++ Except.error e :: rest⟩ :: B)).subreddit_activity
        = (analyzeTrendsCore nlp (A ++ B)).subreddit_activity ∧
    analyzeRedditTrends cid csec tp nlp
        (A ++ ⟨name, pre.map Except.ok ++ Except.error e :: rest⟩ :: B)
      = .ok (analyzeTrendsCore nlp
          (A ++ ⟨name, pre.map Except.ok ++ Except.error e :: rest⟩ :: B)) := by
  set bad : SubInput := ⟨name, pre.map Except.ok ++ Except.error e :: rest⟩ with hbad
  have hnodup' : ((A.map SubInput.name) ++ name :: (B.map SubInput.name)).Nodup := by
    simpa using hnodup
  have nodA : name ∉ A.map SubInput.name := by
    rcases List.nodup_append.mp hnodup' with ⟨-, -, hdisj⟩
    exact fun hmem => hdisj hmem (List.mem_cons_self _ _)
  have nodB : name ∉ B.map SubInput.name := by
    rcases List.nodup_append.mp hnodup' with ⟨-, hnb, -⟩
    exact (List.nodup_cons.mp hnb).1
  have hnodup2 : ((A ++ B).map SubInput.name).Nodup := by
    refine List.Nodup.sublist (List.Sublist.map SubInput.name ?_) hnodup
    exact List.Sublist.append_left (List.sublist_cons_self bad B) A
  have hfbad : subStatsF nlp bad = SubStats.err (msgSubErr ++ e) :=
    runSub_error nlp name e rest pre [] _
  have hA' : statsOf nlp (A ++ bad :: B)
      = A.map (fun s => (s.name, subStatsF nlp s))
        ++ (name, SubStats.err (msgSubErr ++ e))
        :: B.map (fun s => (s.name, subStatsF nlp s)) := by
    rw [statsOf_map nlp _ hnodup]
    rw [List.map_append, List.map_cons, hfbad]
  have hB' : statsOf nlp (A ++ B)
      = A.map (fun s => (s.name, subStatsF nlp s))
        ++ B.map (fun s => (s.name, subStatsF nlp s)) := by
    rw [statsOf_map nlp _ hnodup2, List.map_append]
  have hkeysA : (A.map (fun s => (s.name, subStatsF nlp s))).map Prod.fst
      = A.map SubInput.name := by
    rw [List.map_map]; rfl
  refine ⟨?_, ?_, ?_, ?_, ?_, ?_, ?_⟩
  · rw [hA']
    exact dictFind_middle name _ _ _ (by rw [hkeysA]; exact nodA)
  · intro s hs
    have hsname : ¬(s.name = name) := by
      intro hh
      rcases List.mem_append.mp hs with hsm | hsm
      · exact nodA (hh ▸ List.mem_map_of_mem SubInput.name hsm)
      · exact nodB (hh ▸ List.mem_map_of_mem SubInput.name hsm)
    rw [hA', hB', dictFind_skip_middle s.name name _ _ _ hsname]
  · simp only [analyzeTrendsCore, hA', hB']
    rw [foldl_skip_err mergeKeywordsStep (fun _ _ _ => rfl)]
  · simp only [analyzeTrendsCore, hA', hB']
    rw [foldl_skip_err gatherSentsStep (fun _ _ _ => rfl)]
  · simp only [analyzeTrendsCore, hA', hB']
    rw [foldl_skip_err gatherSentsStep (fun _ _ _ => rfl)]
  · simp only [analyzeTrendsCore, hA', hB']
    rw [foldl_skip_err activityStep (fun _ _ _ => rfl)]
  · have htp' : tp ∈ validPeriods := by simpa using htp
    simp [analyzeRedditTrends, hcid, hcsec, htp']

/-- A small successful post for the C5 counterexample. -/
def pQuiet : TrendPost := ⟨"p2", "Quiet day", "", 5, 1⟩

/-- C5 counterexample: subreddit "b" fetches one post (score 100) and then
fails; its stats entry carries the error marker, yet its already-fetched
post still tops the `trending_posts` aggregate, so the failing subreddit's
data is not excluded from all aggregate computations as the claim states. -/
theorem trend_partial_failure_counterexample :
    dictFind (statsOf nlpI
        [⟨"a", [Except.ok pQuiet]⟩, ⟨"b", [Except.ok pSword, Except.error "boom"]⟩])
        "b" = some (SubStats.err (msgSubErr ++ "boom")) ∧
    (analyzeTrendsCore nlpI
        [⟨"a", [Except.ok pQuiet]⟩, ⟨"b", [Except.ok pSword, Except.error "boom"]⟩]).trending_posts.map
        (fun p => (p.id, p.subredditName)) = [("p1", "b"), ("p2", "a")] := by
  refine ⟨by decide, by decide⟩

/-- Witness for `trend_partial_failure` at a concrete two-subreddit run. -/
theorem trend_partial_failure_witness :
    dictFind (statsOf nlpI
        ([⟨"a", [Except.ok pQuiet]⟩]
          ++ ⟨"b", [pSword].map Except.ok ++ Except.error "boom" :: []⟩ :: []))
        "b" = some (SubStats.err (msgSubErr ++ "boom")) :=
  (trend_partial_failure nlpI [⟨"a", [Except.ok pQuiet]⟩] [] "b" [pSword] "boom"
    [] (some "id") (some "secret") "day"
    (by decide) (by decide) (by decide) (by decide)).1
